import Mathlib

/-!
Verification of the PDFTableExtractor pipeline (shallow embedding).

Each definition below embeds one Python function of the repository:
`merge_normalize_qa.py`, `schema_validator.py`, `chunking_processor.py`,
`agentic_processor_simple.py`, `deduplication_utils.py`, `storage_manager.py`.
Strings are Lean `String` (Python `str` restricted to the code points the
pipeline actually manipulates), Python `int` is `Int`, Python dict records
become structures with `Option` fields for possibly-absent keys, and calls
to external services (OpenAI completions) are oracle parameters.
-/

/-! ## Python string primitives -/

/-- Python whitespace for `str.strip` / regex `\s` (ASCII range). -/
def isPySpace (c : Char) : Bool :=
  c = ' ' || c = '\t' || c = '\n' || c = '\r' || c = '\x0b' || c = '\x0c'

/-- Python `str.strip()` on a character list: drop whitespace at both ends. -/
def pyStripL (cs : List Char) : List Char :=
  ((cs.dropWhile isPySpace).reverse.dropWhile isPySpace).reverse

/-- Python `str.strip()`. -/
def pyStrip (s : String) : String :=
  String.mk (pyStripL s.data)

/-- Python `str.lower()` (ASCII case folding, sufficient for the pipeline data). -/
def pyLower (s : String) : String :=
  String.mk (s.data.map Char.toLower)

/-- Python regex `\w`: word character (letter, digit or underscore; ASCII). -/
def isWordChar (c : Char) : Bool :=
  c.isAlphanum || c = '_'

/-- Match a literal character sequence at the head of `cs`; return the rest. -/
def dropLit : List Char → List Char → Option (List Char)
  | [], cs => some cs
  | _ :: _, [] => none
  | l :: ls, c :: cs => if c = l then dropLit ls cs else none

/-- Is `needle` a contiguous substring of `hay` (Python `in` on `str`)? -/
def hasSub (needle : List Char) : List Char → Bool
  | [] => (dropLit needle []).isSome
  | c :: cs => (dropLit needle (c :: cs)).isSome || hasSub needle cs

/-- Word scanner for Python `s.split()`: `acc` is the word in progress. -/
def pyWordsAux : List Char → List Char → List String
  | [], acc => if acc.isEmpty then [] else [String.mk acc]
  | c :: cs, acc =>
    if isPySpace c then
      if acc.isEmpty then pyWordsAux cs [] else String.mk acc :: pyWordsAux cs []
    else
      pyWordsAux cs (acc ++ [c])

/-- Python `s.split()` (no argument): maximal whitespace-separated words. -/
def pyWords (s : String) : List String :=
  pyWordsAux s.data []

/-! ## Regex engine for the Phase-5 unit-normalization patterns

Every entry of `MergeNormalizeQA.unit_normalization_patterns` has the shape
`pre (\d+\.?\d*) [\s* suf] [\b]` with replacement `\1`: an optional literal
currency mark `pre`, the capture group `\d+\.?\d*`, and an optional literal
suffix `suf` preceded by `\s*` (with an optional trailing `\b` after a
one-letter suffix).  Because no suffix starts with a digit, a dot or
whitespace, Python's leftmost-greedy backtracking search coincides with the
deterministic maximal-munch matcher implemented here (checked against
CPython `re` on the pattern set). -/

structure UnitPattern where
  pre : List Char
  suf : List Char
  bnd : Bool
  unit : String
deriving DecidableEq, Repr

/-- Try to match a unit pattern anchored at the head of `cs`.
Returns the text of capture group 1 and the remaining input after the match. -/
def matchAt (p : UnitPattern) (cs : List Char) : Option (List Char × List Char) :=
  match dropLit p.pre cs with
  | none => none
  | some cs1 =>
    let ds := cs1.takeWhile Char.isDigit
    if ds.isEmpty then none
    else
      let cs2 := cs1.drop ds.length
      let (dot, cs3) :=
        match cs2 with
        | '.' :: r => (['.'], r)
        | _ => (([] : List Char), cs2)
      let ds2 := cs3.takeWhile Char.isDigit
      let cs4 := cs3.drop ds2.length
      let grp := ds ++ dot ++ ds2
      if p.suf.isEmpty then
        some (grp, cs4)
      else
        let cs5 := cs4.dropWhile isPySpace
        match dropLit p.suf cs5 with
        | none => none
        | some cs6 =>
          if p.bnd then
            match cs6 with
            | [] => some (grp, [])
            | c :: _ => if isWordChar c then none else some (grp, cs6)
          else
            some (grp, cs6)

/-- Whether `re.search(pattern, s)` succeeds: some position of `cs` starts a match. -/
def searchFound (p : UnitPattern) : List Char → Bool
  | [] => (matchAt p []).isSome
  | c :: cs => (matchAt p (c :: cs)).isSome || searchFound p cs

/-- One step of `re.sub(pattern, r'\1', s)`: fueled left-to-right scan,
replacing each non-overlapping match with its capture group.  Every match
consumes at least one character (the group needs a digit), so fuel
`cs.length` is never exhausted. -/
def subAll (p : UnitPattern) : Nat → List Char → List Char
  | 0, _ => []
  | _ + 1, [] => []
  | fuel + 1, c :: cs =>
    match matchAt p (c :: cs) with
    | some (grp, rest) => grp ++ subAll p fuel rest
    | none => c :: subAll p fuel cs

/-! ## merge_normalize_qa.py -/

/-- Embedding of `MergeNormalizeQA.unit_normalization_patterns`: the fixed ordered dict of
regex patterns, in Python insertion order (dicts preserve it). -/
def unitNormalizationPatterns : List UnitPattern :=
  [ ⟨[], "thousand".data, false, "thousand"⟩,
    ⟨[], "million".data, false, "million"⟩,
    ⟨[], "billion".data, false, "billion"⟩,
    ⟨[], "k".data, true, "thousand"⟩,
    ⟨[], "m".data, true, "million"⟩,
    ⟨[], "b".data, true, "billion"⟩,
    ⟨"$".data, "million".data, false, "million USD"⟩,
    ⟨"$".data, "billion".data, false, "billion USD"⟩,
    ⟨"$".data, "thousand".data, false, "thousand USD"⟩,
    ⟨"$".data, "m".data, true, "million USD"⟩,
    ⟨"$".data, "b".data, true, "billion USD"⟩,
    ⟨"$".data, "k".data, true, "thousand USD"⟩,
    ⟨"$".data, [], false, "USD"⟩,
    ⟨[], "%".data, false, "percent"⟩,
    ⟨[], "percent".data, false, "percent"⟩,
    ⟨"€".data, [], false, "EUR"⟩,
    ⟨"£".data, [], false, "GBP"⟩ ]

/-- Embedding of `MergeNormalizeQA.normalize_units_regex(value)`: lowercase and strip the
value, try the ordered pattern list; on the first pattern whose search
succeeds, substitute every match by its numeric capture, strip, and return
it with the pattern's unit; otherwise return the original value and `""`. -/
def normalize_units_regex (value : String) : String × String :=
  let vl : List Char := pyStripL (pyLower value).data
  match unitNormalizationPatterns.find? (fun p => searchFound p vl) with
  | some p => (pyStrip (String.mk (subAll p (vl.length + 1) vl)), p.unit)
  | none => (value, "")

example : normalize_units_regex "$115.5 million" = ("$115.5", "million") := by decide
example : normalize_units_regex "35%" = ("35", "percent") := by decide
example : normalize_units_regex "66.9 million" = ("66.9", "million") := by decide
example : normalize_units_regex "Life360" = ("Life360", "") := by decide
example : normalize_units_regex "$2.1B" = ("$2.1", "billion") := by decide
example : normalize_units_regex "100k" = ("100", "thousand") := by decide
example : normalize_units_regex "  5 Percent " = ("5", "percent") := by decide
example : normalize_units_regex "$99" = ("99", "USD") := by decide
example : normalize_units_regex "115.5.6 million" = ("115.5.6", "million") := by decide
example : normalize_units_regex "$115.5M" = ("$115.5", "million") := by decide
example : normalize_units_regex "Life360 is a leading family safety company."
    = ("Life360 is a leading family safety company.", "") := by decide

/-- A canonical-schema item handled by Phase 5 (a Python dict; `Option`
fields model possibly-absent keys, read back with the source's defaults). -/
structure Item where
  page : Option Int
  /-- the dict key `'section'` (`section` is a Lean keyword) -/
  sec : Option String
  row_id : Option Int
  column : Option String
  value : Option String
  unit : Option String
  context : Option String
deriving DecidableEq, Repr

/-- The Phase-4 extraction-result record consumed by Phase 5. -/
structure ExtractionResults where
  tables_extracted : List Item
  keyvalues_extracted : List Item
  narrative_extracted : List Item
deriving Repr

/-- Embedding of `MergeNormalizeQA.concatenate_arrays`: flatten the three arrays in order. -/
def concatenate_arrays (r : ExtractionResults) : List Item :=
  r.tables_extracted ++ r.keyvalues_extracted ++ r.narrative_extracted

/-- The trigger substrings of `normalize_units`'s fallback test:
`any(char in original_value.lower() for char in [...])`. -/
def gptTriggerStrings : List String :=
  ["$", "%", "million", "thousand", "billion", "k", "m", "b"]

/-- Does the value qualify for the GPT fallback (substring test, lowercased)? -/
def gptTrigger (v : String) : Bool :=
  gptTriggerStrings.any (fun n => hasSub n.data (pyLower v).data)

/-- First pass of `MergeNormalizeQA.normalize_units` on one item: run the
regex normalizer on `item.get('value','')`, always store the resulting
value, and overwrite `unit` only when a (truthy) unit was found. -/
def firstPassItem (it : Item) : Item :=
  let ov := it.value.getD ""
  let r := normalize_units_regex ov
  { it with value := some r.1, unit := if r.2 ≠ "" then some r.2 else it.unit }

/-- The `(index, original_value)` tasks sent to the GPT fallback: items whose
regex pass found no unit but whose value contains a trigger substring. -/
def gptTasksAux : Nat → List Item → List (Nat × String)
  | _, [] => []
  | i, it :: rest =>
    let ov := it.value.getD ""
    let r := normalize_units_regex ov
    if r.2 = "" ∧ gptTrigger ov then
      (i, ov) :: gptTasksAux (i + 1) rest
    else
      gptTasksAux (i + 1) rest

def gptTasks (data : List Item) : List (Nat × String) := gptTasksAux 0 data

/-- Apply one GPT fallback result at a list index, as the source's
`normalized_data[index]['value'] = v; if unit: normalized_data[index]['unit'] = u`. -/
def setValueUnit : List Item → Nat → String × String → List Item
  | [], _, _ => []
  | it :: rest, 0, r =>
    { it with value := some r.1, unit := if r.2 ≠ "" then some r.2 else it.unit } :: rest
  | it :: rest, n + 1, r => it :: setValueUnit rest n r

/-- Embedding of `MergeNormalizeQA.normalize_units` with the `gpt-3.5-turbo` call as an
oracle `String → String × String` (the real call catches all its own
exceptions and then returns `(value, '')`, so it is total). -/
def normalize_units (oracle : String → String × String) (data : List Item) : List Item :=
  (gptTasks data).foldl (fun l t => setValueUnit l t.1 (oracle t.2)) (data.map firstPassItem)

/-- The dedup key of `MergeNormalizeQA.deduplicate_and_sort`:
`(item.get('page',0), item.get('section',''), item.get('column',''), item.get('value',''))`. -/
def dedupKey (it : Item) : Int × String × String × String :=
  (it.page.getD 0, it.sec.getD "", it.column.getD "", it.value.getD "")

/-- The first-seen dedup loop: items whose key was already seen are skipped. -/
def dedupGo (seen : List (Int × String × String × String)) : List Item → List Item
  | [] => []
  | it :: rest =>
    if dedupKey it ∈ seen then dedupGo seen rest
    else it :: dedupGo (dedupKey it :: seen) rest

/-- The sort key of `deduplicate_and_sort`:
`(x.get('page',0), x.get('section',''), x.get('row_id',0))`. -/
def sortKey (it : Item) : Int × String × Int :=
  (it.page.getD 0, it.sec.getD "", it.row_id.getD 0)

/-- Python tuple order on the sort keys (lexicographic). -/
def keyLe (a b : Int × String × Int) : Prop :=
  a.1 < b.1 ∨ (a.1 = b.1 ∧ (a.2.1 < b.2.1 ∨ (a.2.1 = b.2.1 ∧ a.2.2 ≤ b.2.2)))

instance (a b : Int × String × Int) : Decidable (keyLe a b) := by
  unfold keyLe; infer_instance

/-- Item comparison used for sorting, as a Boolean relation. -/
def itemLe (a b : Item) : Bool := decide (keyLe (sortKey a) (sortKey b))

/-- Embedding of `MergeNormalizeQA.deduplicate_and_sort`: first-seen dedup by
`(page, section, column, value)`, then a stable ascending sort by
`(page, section, row_id)` (Python `sorted` is a stable sort). -/
def deduplicate_and_sort (data : List Item) : List Item :=
  List.mergeSort (dedupGo [] data) itemLe

/-- The `processing_stats` block of `process_merge_normalize_qa`'s result. -/
structure ProcessingStats where
  original_items : Nat
  normalized_items : Nat
  final_items : Nat
  duplicates_removed : Nat
deriving DecidableEq, Repr

/-- Result of Phase 5 (`final_data` plus `processing_stats`; the advisory
`qa_results` report never feeds back into the data and is not modelled). -/
structure Phase5Results where
  final_data : List Item
  stats : ProcessingStats
deriving Repr

/-- Embedding of `MergeNormalizeQA.process_merge_normalize_qa`: concatenate, normalize
units (regex plus GPT-oracle fallback), dedupe and sort, and report stats. -/
def process_merge_normalize_qa (oracle : String → String × String)
    (r : ExtractionResults) : Phase5Results :=
  let combined := concatenate_arrays r
  let normalized := normalize_units oracle combined
  let finalData := deduplicate_and_sort normalized
  { final_data := finalData,
    stats :=
      { original_items := combined.length,
        normalized_items := normalized.length,
        final_items := finalData.length,
        duplicates_removed := normalized.length - finalData.length } }

/-! ## schema_validator.py -/

/-- The ordered symbol table of `SchemaValidator._extract_unit`
(Python dict insertion order; first symbol found in the value wins). -/
def unitSymbolTable : List (Char × String) :=
  [('$', "USD"), ('%', "percent"), ('M', "millions"), ('B', "billions"),
   ('K', "thousands"), ('€', "EUR"), ('£', "GBP")]

/-- Embedding of `SchemaValidator._extract_unit(value)`: strip the value, then return the
unit of the first symbol occurring anywhere in it (else `""`). -/
def extract_unit (value : String) : String :=
  let v := pyStripL value.data
  match unitSymbolTable.find? (fun e => v.contains e.1) with
  | some e => e.2
  | none => ""

/-- A row in canonical-schema form, as built by `transform_to_canonical`
(every key present). -/
structure CanonicalItem where
  page : Int
  /-- the dict key `'section'` -/
  sec : String
  row_id : Int
  column : String
  value : String
  unit : String
  context : String
deriving DecidableEq, Repr

/-- A loosely-shaped extracted row fed to `transform_to_canonical`
(dict with optional keys `page`, `source`, `field`, `value`, `commentary`;
`value` models `str(item.get("value", ""))`). -/
structure RawRow where
  page : Option Int
  source : Option String
  field : Option String
  value : Option String
  commentary : Option String
deriving DecidableEq, Repr

/-- The loop body of `SchemaValidator.transform_to_canonical`, carrying the
sequential `row_counter` that starts at 1. -/
def transformAux : Int → List RawRow → List CanonicalItem
  | _, [] => []
  | counter, r :: rest =>
    { page := r.page.getD 1,
      sec := r.source.getD "Unknown",
      row_id := counter,
      column := r.field.getD "",
      value := r.value.getD "",
      unit := extract_unit (r.value.getD ""),
      context := r.commentary.getD "" } :: transformAux (counter + 1) rest

/-- Embedding of `SchemaValidator.transform_to_canonical`. -/
def transform_to_canonical (rows : List RawRow) : List CanonicalItem :=
  transformAux 1 rows

/-- Modelled from the spec: the canonical JSON Schema itself lives in
`schema.json`, which is not among the sources; per the spec it requires
`page:int`, `section:string`, `column:string`, `value:string` (with
`column` and `value` non-empty for an item to validate) and optional
`row_id:int`, `unit:string`, `context:string`.  On a `CanonicalItem` all
keys are present with the required types, so validation reduces to the
non-emptiness invariant. -/
def schemaOkItem (it : CanonicalItem) : Bool :=
  it.column ≠ "" && it.value ≠ ""

/-- The result record of `SchemaValidator.validate_data` (the fields the
claims consume: overall validity and the item count). -/
structure ValidationResult where
  valid : Bool
  total_items : Nat
deriving DecidableEq, Repr

/-- Embedding of `SchemaValidator.validate_data` on a list of canonical items: valid iff
every item passes the schema. -/
def validate_data (data : List CanonicalItem) : ValidationResult :=
  { valid := data.all schemaOkItem, total_items := data.length }

/-- The file system seen by `save_canonical_data`: a map from path to the
JSON content written there. -/
def FS : Type := String → Option (List CanonicalItem)

/-- Embedding of `SchemaValidator.save_canonical_data(data, path)`: validate first and
refuse to write (returning `False`) on invalid data; otherwise attempt the
write, where `writeOk` abstracts whether `open(path, 'w')` succeeds (any
`OSError` is caught and turned into `False`).  Total: never raises. -/
def save_canonical_data (writeOk : String → Bool) (fs : FS)
    (data : List CanonicalItem) (path : String) : Bool × FS :=
  if (validate_data data).valid then
    if writeOk path then
      (true, fun p => if p = path then some data else fs p)
    else
      (false, fs)
  else
    (false, fs)

/-! ## chunking_processor.py -/

/-- Constant `ChunkingProcessor.max_tokens_per_chunk`. -/
def maxTokensPerChunk : Nat := 400

/-- Approximate token count of one line: `len(line) // 4`. -/
def lineTokens (line : String) : Nat := line.length / 4

/-- A narrative chunk as built by `_chunk_narrative_text`. -/
structure NChunk where
  page : Int
  chunk_id : String
  block_type : String
  text_lines : List String
  token_count : Nat
  line_count : Nat
deriving DecidableEq, Repr

def mkNChunk (page : Int) (cid : Nat) (lines : List String) (tok : Nat) : NChunk :=
  { page := page,
    chunk_id := "page_" ++ toString page ++ "_chunk_" ++ toString cid,
    block_type := "NARRATIVE",
    text_lines := lines,
    token_count := tok,
    line_count := lines.length }

/-- The loop of `ChunkingProcessor._chunk_narrative_text`: accumulate lines
into `cur`; when a line would push a non-empty chunk over the budget, flush
the chunk first and start a new one with that line. -/
def chunkGo (page : Int) : List String → List String → Nat → Nat → List NChunk
  | [], cur, curTok, cid => if cur.isEmpty then [] else [mkNChunk page cid cur curTok]
  | line :: rest, cur, curTok, cid =>
    let lt := lineTokens line
    if maxTokensPerChunk < curTok + lt ∧ ¬ cur.isEmpty then
      mkNChunk page cid cur curTok :: chunkGo page rest [line] lt (cid + 1)
    else
      chunkGo page rest (cur ++ [line]) (curTok + lt) cid

/-- Embedding of `ChunkingProcessor._chunk_narrative_text(text_lines, page_num)`. -/
def chunk_narrative_text (textLines : List String) (pageNum : Int) : List NChunk :=
  chunkGo pageNum textLines [] 0 1

/-! ## agentic_processor_simple.py -/

/-- The result record of `AgenticProcessor.process_with_iterations` (the
coverage-relevant fields; tables and analyses are oracle outputs that do not
influence control flow). -/
structure AgenticResult where
  coverage_history : List Int
  total_iterations : Nat
  final_coverage : Int
deriving DecidableEq, Repr

/-- The `for iteration in range(max_iterations)` loop with the three model
calls folded into a verification oracle `verify : Nat → Int` giving the
`coverage_score` reported at each iteration index (any deterministic chain
of analyze/tabulate/verify model calls induces such a function).  After
iteration `i` the loop breaks iff `coverage >= 95 and iteration > 0`. -/
def agenticGo (verify : Nat → Int) : Nat → Nat → List Int
  | _, 0 => []
  | i, n + 1 =>
    let cov := verify i
    cov :: (if 95 ≤ cov ∧ 0 < i then [] else agenticGo verify (i + 1) n)

/-- Embedding of `AgenticProcessor.process_with_iterations` (non-streaming; default
`max_iterations` is 3). -/
def process_with_iterations (verify : Nat → Int) (maxIterations : Nat) : AgenticResult :=
  let hist := agenticGo verify 0 maxIterations
  { coverage_history := hist,
    total_iterations := hist.length,
    final_coverage := (hist.getLast?).getD 0 }

/-! ## deduplication_utils.py -/

/-- A row dict seen by `deduplicate_by_semantic_similarity`: optional
`field` and `value` keys (`value` models `str(item.get('value',''))`) plus
whatever other entries the dict carries, passed through untouched. -/
structure Row where
  field : Option String
  value : Option String
  extra : List (String × String)
deriving DecidableEq, Repr

def rowField (r : Row) : String := r.field.getD ""
def rowValue (r : Row) : String := r.value.getD ""

/-- The exact-duplicate key `f"{field}_{value}"`. -/
def rowKey (r : Row) : String := rowField r ++ "_" ++ rowValue r

/-- The loop of `deduplicate_by_semantic_similarity`, parametrized by the
two `is_similar` instances (`simF = is_similar(·,·,0.85)` on fields,
`simV = is_similar(·,·,0.9)` on values; `difflib.SequenceMatcher.ratio` is a
pure function of its two arguments, abstracted here).  `seen` is the
`seen_data` key set, `kept` the `deduplicated` accumulator. -/
def dedupSemGo (simF simV : String → String → Bool)
    (seen : List String) (kept : List Row) : List Row → List Row
  | [] => kept
  | x :: xs =>
    if rowKey x ∈ seen then
      dedupSemGo simF simV seen kept xs
    else if kept.any (fun e => simF (rowField x) (rowField e) && simV (rowValue x) (rowValue e)) then
      dedupSemGo simF simV seen kept xs
    else
      dedupSemGo simF simV (rowKey x :: seen) (kept ++ [x]) xs

/-- Embedding of `deduplicate_by_semantic_similarity(data)`. -/
def deduplicate_by_semantic_similarity (simF simV : String → String → Bool)
    (data : List Row) : List Row :=
  match data with
  | [] => []
  | _ => dedupSemGo simF simV [] [] data

/-! ## storage_manager.py -/

/-- The JSON record written by `TextStorageManager.store_extracted_text`. -/
structure StorageRecord where
  text_id : String
  extracted_text : String
  original_filename : Option String
  extraction_timestamp : String
  text_length : Nat
  word_count : Nat
deriving DecidableEq, Repr

/-- The storage directory (constructor default). -/
def storageDir : String := "storage"

/-- Path of a text record: `os.path.join(storage_dir, f"{text_id}.json")`. -/
def storagePath (textId : String) : String := storageDir ++ "/" ++ textId ++ ".json"

/-- The file system backing the storage manager. -/
def SFS : Type := String → Option StorageRecord

/-- Embedding of `TextStorageManager.generate_text_id(text)`, with the wall clock and the
MD5 digest abstracted (`now` is `datetime.now().strftime("%Y%m%d_%H%M%S")`,
`md5hex text` the hex digest of `md5(text.encode())`). -/
def generate_text_id (md5hex : String → String) (now : String) (text : String) : String :=
  now ++ "_" ++ ((md5hex text).take 8)

/-- Python `len(text.split()) if text else 0`. -/
def pyWordCount (text : String) : Nat :=
  if text = "" then 0 else (pyWords text).length

/-- Embedding of `TextStorageManager.store_extracted_text(text, filename)`: build the id,
write the record under `storage/<id>.json`, return the id (and new state). -/
def store_extracted_text (md5hex : String → String) (now : String) (fs : SFS)
    (text : String) (filename : Option String) : String × SFS :=
  let textId := generate_text_id md5hex now text
  let record : StorageRecord :=
    { text_id := textId,
      extracted_text := text,
      original_filename := filename,
      extraction_timestamp := now,
      text_length := text.length,
      word_count := pyWordCount text }
  (textId, fun p => if p = storagePath textId then some record else fs p)

/-- Embedding of `TextStorageManager.retrieve_text(text_id)`: read `storage/<id>.json`,
`None` when absent. -/
def retrieve_text (fs : SFS) (textId : String) : Option StorageRecord :=
  fs (storagePath textId)

/-! ## Fixtures -/

/-- The fixed two-item Phase-4 sample of the QA-determinism property
(the first two `tables_extracted` entries of `test_merge_normalize_qa`). -/
def c1Sample : List Item :=
  [ ⟨some 1, some "Table", some 1, some "Company", some "Life360", some "", some "header"⟩,
    ⟨some 1, some "Table", some 2, some "Revenue", some "$115.5 million", some "", some "data"⟩ ]

/-- The full Phase-4 sample fixture of `test_merge_normalize_qa`
(three tables items, two key-value items, two narrative items of which the
last duplicates the first tables item). -/
def phase4Fixture : ExtractionResults :=
  { tables_extracted :=
      [ ⟨some 1, some "Table", some 1, some "Company", some "Life360", some "", some "header"⟩,
        ⟨some 1, some "Table", some 2, some "Revenue", some "$115.5 million", some "", some "data"⟩,
        ⟨some 1, some "Table", some 3, some "Growth", some "35%", some "", some "data"⟩ ],
    keyvalues_extracted :=
      [ ⟨some 1, some "KeyValue", some 1, some "Total Users", some "66.9 million", some "", some ""⟩,
        ⟨some 1, some "KeyValue", some 2, some "MAU Growth", some "33%", some "", some ""⟩ ],
    narrative_extracted :=
      [ ⟨some 1, some "Narrative", some 1, some "text",
          some "Life360 is a leading family safety company.", some "", some ""⟩,
        ⟨some 1, some "Table", some 1, some "Company", some "Life360", some "", some "header"⟩ ] }

/-! ## Claim theorems -/

/-- Claim C1 (code bug): on the fixed two-item sample, the Phase-5 unit
normalization leaves the Revenue item with value `"$115.5"` and unit
`"million"`, for every GPT oracle — not the documented value `"115.5"` /
unit `"million USD"`.  The bare `(\d+\.?\d*)\s*million` pattern precedes
the `\$(\d+\.?\d*)\s*million` pattern in the ordered dict, so it always
wins on `$`-prefixed values, making the `million USD` entry unreachable;
the unit-normalization prompt in the same file documents the intended
`"$115.5 million" → {"value": "115.5", "unit": "million USD"}`. -/
theorem normalize_units_sample_revenue_eval :
    ∀ oracle : String → String × String,
      (normalize_units oracle c1Sample).map (fun it => (it.value, it.unit)) =
        [(some "Life360", some ""), (some "$115.5", some "million")] := by
  intro oracle
  rfl

/-- Claim C2, counterexample: `SchemaValidator._extract_unit("$115.5M")`
returns `"USD"` (the `$` symbol is checked first), not `"millions"` as the
claim's table states. -/
theorem extract_unit_counterexample : ¬ extract_unit "$115.5M" = "millions" := by
  decide

/-- Claim C2, amended: under the documented first-symbol-match rule with
order `$, %, M, B, K, €, £`, the five fixed inputs map to `"USD"`,
`"percent"`, `"billions"`, `"thousands"` and `""` respectively
(`$` wins in `"$115.5M"`, `B` wins over `€` in `"€50B"`, `K` wins over `£`
in `"£100K"`). -/
theorem extract_unit_amended :
    extract_unit "$115.5M" = "USD" ∧
    extract_unit "25%" = "percent" ∧
    extract_unit "€50B" = "billions" ∧
    extract_unit "£100K" = "thousands" ∧
    extract_unit "No units here" = "" := by
  decide

/-- Every item produced by `transformAux` has a non-empty column and value
when every source row has a non-empty `field` and `value`. -/
theorem transformAux_all_valid :
    ∀ (rows : List RawRow) (counter : Int),
      (∀ r ∈ rows, r.field.getD "" ≠ "" ∧ r.value.getD "" ≠ "") →
      (transformAux counter rows).all schemaOkItem = true := by
  intro rows
  induction rows with
  | nil => intro counter _; rfl
  | cons r rest ih =>
    intro counter h
    have hr := h r (List.mem_cons_self r rest)
    simp only [transformAux, List.all_cons, Bool.and_eq_true]
    constructor
    · simp [schemaOkItem, hr.1, hr.2]
    · exact ih (counter + 1) (fun x hx => h x (List.mem_cons_of_mem r hx))

/-- Claim C6: `transform_to_canonical` followed by `validate_data` reports
`valid = true` whenever every input row has a non-empty `field` and a
non-empty `value`. -/
theorem transform_validate_roundtrip :
    ∀ rows : List RawRow,
      (∀ r ∈ rows, r.field.getD "" ≠ "" ∧ r.value.getD "" ≠ "") →
      (validate_data (transform_to_canonical rows)).valid = true := by
  intro rows h
  exact transformAux_all_valid rows 1 h

/-- Claim C6, witness: the round trip at a concrete one-row input. -/
theorem transform_validate_roundtrip_witness :
    (∀ r ∈ [(⟨some 1, some "Table 1", some "Company", some "Life360", none⟩ : RawRow)],
        r.field.getD "" ≠ "" ∧ r.value.getD "" ≠ "") ∧
    (validate_data (transform_to_canonical
        [⟨some 1, some "Table 1", some "Company", some "Life360", none⟩])).valid = true :=
  ⟨by decide, transform_validate_roundtrip _ (by decide)⟩

/-- Claim C8: `save_canonical_data` validates before writing; on data that
fails validation it returns `False` and leaves the file system unchanged
(and, being a total function of its inputs, it never raises). -/
theorem save_canonical_refuses_invalid :
    ∀ (writeOk : String → Bool) (fs : FS) (data : List CanonicalItem) (path : String),
      (validate_data data).valid = false →
      save_canonical_data writeOk fs data path = (false, fs) := by
  intro writeOk fs data path h
  simp [save_canonical_data, h]

/-- Claim C8, witness: a concrete invalid row (empty `column`) is refused. -/
theorem save_canonical_refuses_invalid_witness :
    (validate_data [(⟨1, "Table", 1, "", "Life360", "", ""⟩ : CanonicalItem)]).valid = false ∧
    save_canonical_data (fun _ => true) (fun _ => none)
        [⟨1, "Table", 1, "", "Life360", "", ""⟩] "output/canonical.json" =
      (false, fun _ => none) :=
  ⟨by decide, save_canonical_refuses_invalid _ _ _ _ (by decide)⟩

/-- Claim C9: storing text and retrieving the returned id round-trips, with
`text_length = len(text)` and `word_count = len(text.split())` (0 for empty
text); in particular storing `"abc"` yields a record with text `"abc"`,
length 3 and word count 1. -/
theorem storage_round_trip :
    ∀ (md5hex : String → String) (now : String) (fs : SFS),
      (∀ (text : String) (filename : Option String),
        retrieve_text (store_extracted_text md5hex now fs text filename).2
            (store_extracted_text md5hex now fs text filename).1 =
          some { text_id := (store_extracted_text md5hex now fs text filename).1,
                 extracted_text := text,
                 original_filename := filename,
                 extraction_timestamp := now,
                 text_length := text.length,
                 word_count := pyWordCount text }) ∧
      (retrieve_text (store_extracted_text md5hex now fs "abc" (some "f.pdf")).2
            (store_extracted_text md5hex now fs "abc" (some "f.pdf")).1).map
          (fun r => (r.extracted_text, r.text_length, r.word_count)) =
        some ("abc", 3, 1) := by
  intro md5hex now fs
  constructor
  · intro text filename
    simp [retrieve_text, store_extracted_text]
  · simp [retrieve_text, store_extracted_text]
    decide

/-- The loop never runs more iterations than `range(max_iterations)` has. -/
theorem agenticGo_length_le (verify : Nat → Int) :
    ∀ (n i : Nat), (agenticGo verify i n).length ≤ n := by
  intro n
  induction n with
  | zero => intro i; simp [agenticGo]
  | succ n ih =>
    intro i
    simp only [agenticGo]
    split
    · simp
    · simpa using Nat.succ_le_succ (ih (i + 1))

/-- A positive iteration budget yields at least one iteration. -/
theorem agenticGo_length_pos (verify : Nat → Int) :
    ∀ (n i : Nat), 0 < n → 0 < (agenticGo verify i n).length := by
  intro n i hn
  match n, hn with
  | n + 1, _ =>
    simp only [agenticGo]
    split <;> simp

/-- If no iteration of index `≥ 1` in the window reaches coverage 95, the
loop runs to the full budget. -/
theorem agenticGo_length_full (verify : Nat → Int) :
    ∀ (n i : Nat), (∀ j, 0 < j → i ≤ j → j < i + n → verify j < 95) →
      (agenticGo verify i n).length = n := by
  intro n
  induction n with
  | zero => intro i _; rfl
  | succ n ih =>
    intro i h
    simp only [agenticGo]
    have hcond : ¬ (95 ≤ verify i ∧ 0 < i) := by
      rintro ⟨hc, hi⟩
      exact absurd hc (not_le.mpr (h i hi le_rfl (by omega)))
    rw [if_neg hcond]
    have := ih (i + 1) (fun j hj hij hlt => h j hj (by omega) (by omega))
    simp [this]

/-- If the loop stopped before exhausting its budget, the last completed
iteration satisfied the early-exit condition `coverage ≥ 95 ∧ index > 0`. -/
theorem agenticGo_early_exit (verify : Nat → Int) :
    ∀ (n i : Nat), (agenticGo verify i n).length < n →
      95 ≤ verify (i + (agenticGo verify i n).length - 1) ∧
        0 < i + (agenticGo verify i n).length - 1 := by
  intro n
  induction n with
  | zero => intro i h; omega
  | succ n ih =>
    intro i h
    simp only [agenticGo] at h ⊢
    by_cases hc : 95 ≤ verify i ∧ 0 < i
    · rw [if_pos hc] at h ⊢
      simpa using hc
    · rw [if_neg hc] at h ⊢
      have hlt : (agenticGo verify (i + 1) n).length < n := by
        simpa using Nat.lt_of_succ_lt_succ h
      have := ih (i + 1) hlt
      have harith : i + 1 + (agenticGo verify (i + 1) n).length - 1 =
          i + ((agenticGo verify (i + 1) n).length + 1) - 1 := by omega
      simpa [List.length_cons, harith] using this

/-- Claim C5: the non-streaming agentic loop (model calls as an oracle)
exits early after an iteration iff that iteration's `coverage_score` is
`≥ 95` and its index is `> 0`; hence at least two iterations always
complete when the budget allows them, the synthetic 96-then-98 verifier
yields exactly 2 completed iterations, and absent early exit exactly
`max_iterations` (default 3) iterations run. -/
theorem agentic_stopping_rule :
    ∀ verify : Nat → Int,
      (∀ m, 2 ≤ m → 2 ≤ (process_with_iterations verify m).total_iterations) ∧
      (process_with_iterations (fun i => if i = 0 then (96 : Int) else 98)
          3).total_iterations = 2 ∧
      (∀ m, (∀ i, 0 < i → i < m → verify i < 95) →
        (process_with_iterations verify m).total_iterations = m) ∧
      (∀ m, (process_with_iterations verify m).total_iterations < m →
        95 ≤ verify ((process_with_iterations verify m).total_iterations - 1) ∧
          0 < (process_with_iterations verify m).total_iterations - 1) := by
  intro verify
  refine ⟨?_, by decide, ?_, ?_⟩
  · intro m hm
    match m, hm with
    | n + 2, _ =>
      show 2 ≤ (agenticGo verify 0 (n + 2)).length
      simp only [agenticGo]
      rw [if_neg (by simp)]
      have := agenticGo_length_pos verify (n + 1) 1 (by omega)
      simp only [List.length_cons]
      omega
  · intro m h
    exact agenticGo_length_full verify m 0 (fun j hj _ hlt => h j hj (by simpa using hlt))
  · intro m h
    have := agenticGo_early_exit verify m 0 h
    simpa using this

/-- Claim C5, witness: concrete oracles exercising each hypothesis — an
always-0 verifier runs all 3 iterations (and at least 2), an always-100
verifier exits early with the exit condition holding at the last index. -/
theorem agentic_stopping_rule_witness :
    2 ≤ (process_with_iterations (fun _ => (0 : Int)) 3).total_iterations ∧
    (process_with_iterations (fun _ => (0 : Int)) 3).total_iterations = 3 ∧
    (95 ≤ (fun _ => (100 : Int)) ((process_with_iterations (fun _ => (100 : Int)) 3).total_iterations - 1) ∧
      0 < (process_with_iterations (fun _ => (100 : Int)) 3).total_iterations - 1) :=
  ⟨(agentic_stopping_rule (fun _ => 0)).1 3 (by decide),
   (agentic_stopping_rule (fun _ => 0)).2.2.1 3 (fun i _ _ => by decide),
   (agentic_stopping_rule (fun _ => 100)).2.2.2 3 (by decide)⟩

/-- Cumulative approximate token count of a chunk's lines. -/
def sumTokens (lines : List String) : Nat :=
  (lines.map lineTokens).sum

/-- Invariant of the chunking loop: provided the running token counter
matches the in-progress chunk and that chunk is within budget (or is a
single oversized line), every emitted chunk records its own token sum and
is within budget or a single oversized line. -/
theorem chunkGo_invariant (page : Int) :
    ∀ (rest cur : List String) (curTok cid : Nat),
      curTok = sumTokens cur →
      (sumTokens cur ≤ maxTokensPerChunk ∨
        ∃ l, cur = [l] ∧ maxTokensPerChunk < lineTokens l) →
      ∀ c ∈ chunkGo page rest cur curTok cid,
        c.token_count = sumTokens c.text_lines ∧
          (sumTokens c.text_lines ≤ maxTokensPerChunk ∨
            ∃ l, c.text_lines = [l] ∧ maxTokensPerChunk < lineTokens l) := by
  intro rest
  induction rest with
  | nil =>
    intro cur curTok cid htok hgood c hc
    simp only [chunkGo] at hc
    split at hc
    · simp at hc
    · simp only [List.mem_singleton] at hc
      subst hc
      exact ⟨htok, hgood⟩
  | cons line rest ih =>
    intro cur curTok cid htok hgood c hc
    simp only [chunkGo] at hc
    split at hc
    · rcases List.mem_cons.mp hc with hhead | htail
      · subst hhead
        exact ⟨htok, hgood⟩
      · refine ih [line] (lineTokens line) (cid + 1) (by simp [sumTokens]) ?_ c htail
        rcases le_or_lt (lineTokens line) maxTokensPerChunk with hle | hgt
        · exact Or.inl (by simpa [sumTokens] using hle)
        · exact Or.inr ⟨line, rfl, hgt⟩
    · rename_i hcond
      have hsum : curTok + lineTokens line = sumTokens (cur ++ [line]) := by
        simp [sumTokens, htok]
      refine ih (cur ++ [line]) (curTok + lineTokens line) cid hsum ?_ c hc
      rcases Decidable.not_and_iff_or_not.mp hcond with hbudget | hempty
      · exact Or.inl (by rw [← hsum]; omega)
      · have hnil : cur = [] := by
          simpa [List.isEmpty_iff] using hempty
        subst hnil
        rcases le_or_lt (lineTokens line) maxTokensPerChunk with hle | hgt
        · exact Or.inl (by simpa [sumTokens] using hle)
        · exact Or.inr ⟨line, rfl, hgt⟩

/-- Claim C3: every chunk produced by `_chunk_narrative_text` records its
own cumulative approximate token count (`sum(len(line)//4)`), and that
count is at most 400 except when the chunk is a single line that alone
exceeds 400 tokens. -/
theorem chunk_token_budget :
    ∀ (textLines : List String) (pageNum : Int) (c : NChunk),
      c ∈ chunk_narrative_text textLines pageNum →
      c.token_count = sumTokens c.text_lines ∧
        (sumTokens c.text_lines ≤ maxTokensPerChunk ∨
          ∃ l, c.text_lines = [l] ∧ maxTokensPerChunk < lineTokens l) := by
  intro textLines pageNum c hc
  exact chunkGo_invariant pageNum textLines [] 0 1 rfl (Or.inl (by simp [sumTokens])) c hc

/-- Claim C3, witness: the one-line input `["aaaa"]` produces one chunk of
one approximate token, within budget. -/
theorem chunk_token_budget_witness :
    (NChunk.mk 1 "page_1_chunk_1" "NARRATIVE" ["aaaa"] 1 1) ∈ chunk_narrative_text ["aaaa"] 1 ∧
    ((NChunk.mk 1 "page_1_chunk_1" "NARRATIVE" ["aaaa"] 1 1).token_count =
        sumTokens (NChunk.mk 1 "page_1_chunk_1" "NARRATIVE" ["aaaa"] 1 1).text_lines ∧
      (sumTokens (NChunk.mk 1 "page_1_chunk_1" "NARRATIVE" ["aaaa"] 1 1).text_lines ≤
          maxTokensPerChunk ∨
        ∃ l, (NChunk.mk 1 "page_1_chunk_1" "NARRATIVE" ["aaaa"] 1 1).text_lines = [l] ∧
          maxTokensPerChunk < lineTokens l)) :=
  ⟨by decide, chunk_token_budget ["aaaa"] 1 _ (by decide)⟩

/-- The fields of an item other than `value` and `unit`. -/
def itemShape (it : Item) : Option Int × Option String × Option Int × Option String × Option String :=
  (it.page, it.sec, it.row_id, it.column, it.context)

/-- Applying a GPT result at an index only rewrites `value`/`unit`. -/
theorem setValueUnit_map_shape :
    ∀ (l : List Item) (i : Nat) (r : String × String),
      (setValueUnit l i r).map itemShape = l.map itemShape := by
  intro l
  induction l with
  | nil => intro i r; rfl
  | cons x xs ih =>
    intro i r
    cases i with
    | zero => simp [setValueUnit, itemShape]
    | succ n => simp [setValueUnit, ih]

/-- Folding GPT results over the task list only rewrites `value`/`unit`. -/
theorem foldl_setValueUnit_shape (oracle : String → String × String) :
    ∀ (tasks : List (Nat × String)) (l : List Item),
      ((tasks.foldl (fun acc t => setValueUnit acc t.1 (oracle t.2)) l).map itemShape) =
        l.map itemShape := by
  intro tasks
  induction tasks with
  | nil => intro l; rfl
  | cons t ts ih =>
    intro l
    rw [List.foldl_cons, ih, setValueUnit_map_shape]

/-- Claim C10: `normalize_units` is a frame over `value`/`unit`: it returns
a list of the same length in the same order, and every field other than
`value` and `unit` of every item is unchanged, for every GPT oracle. -/
theorem normalize_units_frame :
    ∀ (oracle : String → String × String) (data : List Item),
      (normalize_units oracle data).length = data.length ∧
      (normalize_units oracle data).map itemShape = data.map itemShape := by
  intro oracle data
  have hmap : (normalize_units oracle data).map itemShape = data.map itemShape := by
    unfold normalize_units
    rw [foldl_setValueUnit_shape, List.map_map]
    have hcomp : itemShape ∘ firstPassItem = itemShape := funext fun it => rfl
    rw [hcomp]
  refine ⟨?_, hmap⟩
  have := congrArg List.length hmap
  simpa using this

/-- The relation between an earlier kept row `a` and a later row `b` in the
output of `deduplicate_by_semantic_similarity`: distinct exact keys, and
`b` not field-and-value similar to `a`. -/
def semNew (simF simV : String → String → Bool) (a b : Row) : Prop :=
  rowKey b ≠ rowKey a ∧
    (simF (rowField b) (rowField a) && simV (rowValue b) (rowValue a)) = false

/-- If every remaining row is new w.r.t. the seen keys, the kept rows and
each other, the loop appends them all. -/
theorem dedupSemGo_append_all (simF simV : String → String → Bool) :
    ∀ (ys : List Row) (seen : List String) (kept : List Row),
      (∀ y ∈ ys, rowKey y ∉ seen) →
      (∀ y ∈ ys, ∀ e ∈ kept,
        (simF (rowField y) (rowField e) && simV (rowValue y) (rowValue e)) = false) →
      List.Pairwise (semNew simF simV) ys →
      dedupSemGo simF simV seen kept ys = kept ++ ys := by
  intro ys
  induction ys with
  | nil => intro seen kept _ _ _; simp [dedupSemGo]
  | cons y ys ih =>
    intro seen kept h1 h2 hp
    have hk : rowKey y ∉ seen := h1 y (List.mem_cons_self y ys)
    have hany : kept.any
        (fun e => simF (rowField y) (rowField e) && simV (rowValue y) (rowValue e)) = false := by
      rw [List.any_eq_false]
      intro e he
      simp [h2 y (List.mem_cons_self y ys) e he]
    rcases List.pairwise_cons.mp hp with ⟨hy, hp'⟩
    simp only [dedupSemGo, if_neg hk, hany, Bool.false_eq_true, if_false]
    rw [ih (rowKey y :: seen) (kept ++ [y]) ?keys ?sims hp']
    · simp
    case keys =>
      intro z hz
      have hzy := hy z hz
      simp only [List.mem_cons, not_or]
      exact ⟨hzy.1, h1 z (List.mem_cons_of_mem y hz)⟩
    case sims =>
      intro z hz e he
      rcases List.mem_append.mp he with hel | her
      · exact h2 z (List.mem_cons_of_mem y hz) e hel
      · have : e = y := List.mem_singleton.mp her
        subst this
        exact (hy z hz).2

/-- The kept accumulator of the loop stays pairwise-new throughout. -/
theorem dedupSemGo_pairwise (simF simV : String → String → Bool) :
    ∀ (xs : List Row) (seen : List String) (kept : List Row),
      List.Pairwise (semNew simF simV) kept →
      (∀ e ∈ kept, rowKey e ∈ seen) →
      List.Pairwise (semNew simF simV) (dedupSemGo simF simV seen kept xs) := by
  intro xs
  induction xs with
  | nil => intro seen kept hkp _; simpa [dedupSemGo] using hkp
  | cons x xs ih =>
    intro seen kept hkp hks
    by_cases hk : rowKey x ∈ seen
    · simp only [dedupSemGo, if_pos hk]
      exact ih seen kept hkp hks
    · cases hany : kept.any
          (fun e => simF (rowField x) (rowField e) && simV (rowValue x) (rowValue e)) with
      | true =>
        simp only [dedupSemGo, if_neg hk, hany, if_true]
        exact ih seen kept hkp hks
      | false =>
        simp only [dedupSemGo, if_neg hk, hany, Bool.false_eq_true, if_false]
        refine ih (rowKey x :: seen) (kept ++ [x]) ?_ ?_
        · rw [List.pairwise_append]
          refine ⟨hkp, List.pairwise_singleton _ _, ?_⟩
          intro a ha b hb
          have hbx : b = x := List.mem_singleton.mp hb
          subst hbx
          refine ⟨fun heq => hk (heq ▸ hks a ha), ?_⟩
          simpa using List.any_eq_false.mp hany a ha
        · intro e he
          rcases List.mem_append.mp he with hel | her
          · exact List.mem_cons_of_mem _ (hks e hel)
          · have : e = x := List.mem_singleton.mp her
            subst this
            exact List.mem_cons_self _ _

/-- Claim C7: `deduplicate_by_semantic_similarity` is idempotent — its
output is a fixed point — for every similarity predicate pair abstracting
the two `is_similar` thresholds. -/
theorem dedup_semantic_idempotent :
    ∀ (simF simV : String → String → Bool) (data : List Row),
      deduplicate_by_semantic_similarity simF simV
          (deduplicate_by_semantic_similarity simF simV data) =
        deduplicate_by_semantic_similarity simF simV data := by
  intro simF simV data
  cases data with
  | nil => rfl
  | cons x xs =>
    have hpair : List.Pairwise (semNew simF simV) (dedupSemGo simF simV [] [] (x :: xs)) :=
      dedupSemGo_pairwise simF simV (x :: xs) [] [] (by simp) (by simp)
    show deduplicate_by_semantic_similarity simF simV (dedupSemGo simF simV [] [] (x :: xs)) =
      dedupSemGo simF simV [] [] (x :: xs)
    cases hcase : dedupSemGo simF simV [] [] (x :: xs) with
    | nil => rfl
    | cons y ys =>
      show dedupSemGo simF simV [] [] (y :: ys) = y :: ys
      rw [dedupSemGo_append_all simF simV (y :: ys) [] [] (by simp) (by simp) (hcase ▸ hpair)]
      simp

/-- First-seen deduplication phrased the way the claim states it: an item is
dropped exactly when some earlier item of the list (the accumulated prefix
`pre`) has the same `(page, section, column, value)` key. -/
def claimDedup (pre : List Item) : List Item → List Item
  | [] => []
  | x :: xs =>
    if pre.any (fun y => dedupKey y == dedupKey x) then claimDedup (pre ++ [x]) xs
    else x :: claimDedup (pre ++ [x]) xs

/-- The seen-key set of the source loop tracks exactly the keys of all
earlier items, so the loop agrees with the claim-shaped filter. -/
theorem dedupGo_eq_claimDedup :
    ∀ (xs : List Item) (seen : List (Int × String × String × String)) (pre : List Item),
      (∀ k, k ∈ seen ↔ ∃ y ∈ pre, dedupKey y = k) →
      dedupGo seen xs = claimDedup pre xs := by
  intro xs
  induction xs with
  | nil => intro seen pre _; rfl
  | cons x xs ih =>
    intro seen pre h
    have hcond : dedupKey x ∈ seen ↔ pre.any (fun y => dedupKey y == dedupKey x) = true := by
      rw [h, List.any_eq_true]
      simp only [beq_iff_eq]
    by_cases hk : dedupKey x ∈ seen
    · rw [show dedupGo seen (x :: xs) = dedupGo seen xs from if_pos hk,
        show claimDedup pre (x :: xs) = claimDedup (pre ++ [x]) xs from if_pos (hcond.mp hk)]
      apply ih seen (pre ++ [x])
      intro k
      rw [h]
      constructor
      · rintro ⟨y, hy, rfl⟩
        exact ⟨y, List.mem_append_left _ hy, rfl⟩
      · rintro ⟨y, hy, rfl⟩
        rcases List.mem_append.mp hy with hyl | hyr
        · exact ⟨y, hyl, rfl⟩
        · have : y = x := List.mem_singleton.mp hyr
          subst this
          exact (h (dedupKey y)).mp hk
    · rw [show dedupGo seen (x :: xs) = x :: dedupGo (dedupKey x :: seen) xs from if_neg hk,
        show claimDedup pre (x :: xs) = x :: claimDedup (pre ++ [x]) xs from
          if_neg (fun hc => hk (hcond.mpr hc))]
      congr 1
      apply ih (dedupKey x :: seen) (pre ++ [x])
      intro k
      simp only [List.mem_cons, h]
      constructor
      · rintro (rfl | ⟨y, hy, rfl⟩)
        · exact ⟨x, List.mem_append_right _ (List.mem_singleton.mpr rfl), rfl⟩
        · exact ⟨y, List.mem_append_left _ hy, rfl⟩
      · rintro ⟨y, hy, rfl⟩
        rcases List.mem_append.mp hy with hyl | hyr
        · exact Or.inr ⟨y, hyl, rfl⟩
        · have : y = x := List.mem_singleton.mp hyr
          subst this
          exact Or.inl rfl

/-- Python tuple order is transitive. -/
theorem keyLe_trans :
    ∀ a b c : Int × String × Int, keyLe a b → keyLe b c → keyLe a c := by
  intro a b c hab hbc
  unfold keyLe at *
  rcases hab with h | ⟨hEq, hab2⟩
  · rcases hbc with g | ⟨gEq, _⟩
    · exact Or.inl (lt_trans h g)
    · exact Or.inl (lt_of_lt_of_le h (le_of_eq gEq))
  · rcases hbc with g | ⟨gEq, hbc2⟩
    · exact Or.inl (lt_of_le_of_lt (le_of_eq hEq) g)
    · refine Or.inr ⟨hEq.trans gEq, ?_⟩
      rcases hab2 with h2 | ⟨hEq2, h3⟩
      · rcases hbc2 with g2 | ⟨gEq2, _⟩
        · exact Or.inl (lt_trans h2 g2)
        · exact Or.inl (lt_of_lt_of_le h2 (le_of_eq gEq2))
      · rcases hbc2 with g2 | ⟨gEq2, g3⟩
        · exact Or.inl (lt_of_le_of_lt (le_of_eq hEq2) g2)
        · exact Or.inr ⟨hEq2.trans gEq2, le_trans h3 g3⟩

/-- Python tuple order is total. -/
theorem keyLe_total : ∀ a b : Int × String × Int, keyLe a b ∨ keyLe b a := by
  intro a b
  unfold keyLe
  rcases lt_trichotomy a.1 b.1 with h | h | h
  · exact Or.inl (Or.inl h)
  · rcases lt_trichotomy a.2.1 b.2.1 with h2 | h2 | h2
    · exact Or.inl (Or.inr ⟨h, Or.inl h2⟩)
    · rcases le_total a.2.2 b.2.2 with h3 | h3
      · exact Or.inl (Or.inr ⟨h, Or.inr ⟨h2, h3⟩⟩)
      · exact Or.inr (Or.inr ⟨h.symm, Or.inr ⟨h2.symm, h3⟩⟩)
    · exact Or.inr (Or.inr ⟨h.symm, Or.inl h2⟩)
  · exact Or.inr (Or.inl h)

theorem itemLe_trans : ∀ a b c : Item, itemLe a b → itemLe b c → itemLe a c := by
  intro a b c hab hbc
  simp only [itemLe, decide_eq_true_eq] at *
  exact keyLe_trans _ _ _ hab hbc

theorem itemLe_total : ∀ a b : Item, itemLe a b || itemLe b a := by
  intro a b
  simp only [itemLe, Bool.or_eq_true, decide_eq_true_eq]
  exact keyLe_total _ _

/-- Claim C4: `deduplicate_and_sort` keeps an item iff no earlier item of
the list has the same `(page, section, column, value)` key (defaults 0 and
`""`), returns the survivors in ascending `(page, section, row_id)` order
(`row_id` defaulting to 0), and consequently on the Phase-4 sample fixture
(one duplicated Company/Life360 entry) the Phase-5 pipeline reports
`duplicates_removed = 1` and `final_items = original_items - 1`, for every
GPT oracle. -/
theorem dedup_sort_characterization :
    (∀ data : List Item,
      deduplicate_and_sort data = List.mergeSort (claimDedup [] data) itemLe) ∧
    (∀ data : List Item,
      List.Pairwise (fun a b => keyLe (sortKey a) (sortKey b)) (deduplicate_and_sort data)) ∧
    (∀ oracle : String → String × String,
      (process_merge_normalize_qa oracle phase4Fixture).stats.duplicates_removed = 1 ∧
      (process_merge_normalize_qa oracle phase4Fixture).stats.final_items =
        (process_merge_normalize_qa oracle phase4Fixture).stats.original_items - 1) := by
  refine ⟨?_, ?_, ?_⟩
  · intro data
    unfold deduplicate_and_sort
    rw [dedupGo_eq_claimDedup data [] [] (by simp)]
  · intro data
    have hs := List.sorted_mergeSort itemLe_trans itemLe_total (dedupGo [] data)
    exact hs.imp (fun hab => by simpa [itemLe, decide_eq_true_eq] using hab)
  · intro oracle
    have hperm := (List.mergeSort_perm
      (dedupGo [] (normalize_units oracle (concatenate_arrays phase4Fixture))) itemLe).length_eq
    constructor
    · show (normalize_units oracle (concatenate_arrays phase4Fixture)).length -
        (deduplicate_and_sort (normalize_units oracle (concatenate_arrays phase4Fixture))).length = 1
      unfold deduplicate_and_sort
      rw [hperm]
      rfl
    · show (deduplicate_and_sort (normalize_units oracle (concatenate_arrays phase4Fixture))).length =
        (concatenate_arrays phase4Fixture).length - 1
      unfold deduplicate_and_sort
      rw [hperm]
      rfl
